import Mathlib

/-
Verification development for the Zettelkasten core of B3Fileorganizer.

The Python modules b3fileorganizer/core/zettelkasten.py and
b3fileorganizer/core/zettel_indexer.py are shallowly embedded below:

- Python dicts become association lists (Dict) with first-match lookup and
  in-place update semantics (updating an existing key keeps its position,
  a new key is appended), matching insertion-ordered Python dicts.
- JSON object fields that a dict entry may carry, omit, or hold as null are
  modelled by the three-valued type JField.
- Python exceptions that escape a function are modelled by Except String;
  the string names the Python exception class.
- Machine strings are Lean String, manipulated through List Char helpers so
  that every definition reduces in the kernel.  Char.toLower, Char.isAlpha
  and the whitespace set model the ASCII fragment of the corresponding
  Python unicode-aware operations; every property proved here only involves
  ASCII data, where the two coincide.
- File-system effects are modelled explicitly: a file system is a Dict from
  path to content, and fallible operations take a record of Booleans saying
  which operation succeeds (an IOFlags value plays the role of the
  environment that decides whether an open/write/mkdir raises).
-/

/-! ## Association lists modelling Python dicts -/

abbrev Dict (α : Type) := List (String × α)

namespace Dict

def find? {α : Type} (d : Dict α) (k : String) : Option α :=
  match d with
  | [] => none
  | (k', v) :: rest => if k' = k then some v else find? rest k

/- Python d[k] = v where k may or may not be present: an existing key keeps
its position, a fresh key is appended at the end. -/
def insert {α : Type} (d : Dict α) (k : String) (v : α) : Dict α :=
  match d with
  | [] => [(k, v)]
  | (k', v') :: rest => if k' = k then (k, v) :: rest else (k', v') :: insert rest k v

def keys {α : Type} (d : Dict α) : List String := d.map Prod.fst

def contains {α : Type} (d : Dict α) (k : String) : Bool := (find? d k).isSome

end Dict

/-! ## Three-valued JSON object fields -/

/- A key of a JSON object can be absent, present with value null, or present
with a real value.  Python obj.get(k) conflates the first two; obj.get(k, d)
does not; obj[k] raises on the first only. -/
inductive JField (α : Type) where
  | absent : JField α
  | null : JField α
  | val : α → JField α
deriving DecidableEq

namespace JField

/- Python obj.get(k): absent and null both give None. -/
def get? {α : Type} : JField α → Option α
  | .val a => some a
  | _ => none

/- Python obj.get(k, d): absent gives the default, null gives None. -/
def getD? {α : Type} (f : JField α) (d : α) : Option α :=
  match f with
  | .absent => some d
  | .null => none
  | .val a => some a

/- A field that does not hold an explicit null. -/
def notNull {α : Type} : JField α → Bool
  | .null => false
  | _ => true

end JField

/-! ## String helpers over List Char (kernel-reducible) -/

/- ASCII whitespace, the fragment of Python str.strip / str.split behaviour
exercised by the properties below. -/
def isPyWs (c : Char) : Bool :=
  c = ' ' || c = '\t' || c = '\n' || c = '\r'

/- Python str.strip(). -/
def strStrip (s : String) : String :=
  ⟨((s.data.dropWhile isPyWs).reverse.dropWhile isPyWs).reverse⟩

/- Python str.lower() (ASCII fragment). -/
def strLower (s : String) : String := ⟨s.data.map Char.toLower⟩

/- Python s.replace(" ", "_"): only the single-character pattern used by the
source is needed. -/
def strUnderscore (s : String) : String :=
  ⟨s.data.map (fun c => if c = ' ' then '_' else c)⟩

/- Python s[:n] for strings. -/
def strTake (s : String) (n : Nat) : String := ⟨s.data.take n⟩

def isSubList (needle : List Char) : List Char → Bool
  | [] => needle.isEmpty
  | c :: cs => needle.isPrefixOf (c :: cs) || isSubList needle cs

/- Case-insensitive substring test: the SQLite LIKE percent-query pattern as
used by ZettelIndexer.search, for queries without LIKE metacharacters. -/
def strContainsCI (hay needle : String) : Bool :=
  isSubList (needle.data.map Char.toLower) (hay.data.map Char.toLower)

/- Splitting a character list into maximal runs of characters satisfying p,
discarding the separators.  Drives both Python str.split() and the regex
word tokenizer below. -/
def runsBy (p : Char → Bool) : List Char → List Char → List String
  | [], acc => if acc.isEmpty then [] else [⟨acc.reverse⟩]
  | c :: cs, acc =>
    if p c then runsBy p cs (c :: acc)
    else if acc.isEmpty then runsBy p cs []
    else ⟨acc.reverse⟩ :: runsBy p cs []

/- Python str.split() with no argument: split on whitespace runs. -/
def pySplitWs (s : String) : List String := runsBy (fun c => !isPyWs c) s.data []

/- The character class of the regex word pattern (backslash w), ASCII
fragment: letters, digits, underscore. -/
def isWordChar (c : Char) : Bool := c.isAlpha || c.isDigit || c = '_'

/- re.findall of the word pattern: the list of maximal word-character runs. -/
def pyWords (s : String) : List String := runsBy isWordChar s.data []

/- json.dumps of a list of strings (no JSON-escaping needed: the source data
contains no quotes or control characters). -/
def dumpsStrList : List String → String
  | [] => "[]"
  | x :: xs => "[\"" ++ x ++ "\"" ++ goL xs ++ "]"
where goL : List String → String
  | [] => ""
  | y :: ys => ", \"" ++ y ++ "\"" ++ goL ys

/- json.dumps applied to meta.get(key, []): an absent field dumps as the
default empty list, a null field dumps as the four-character null literal. -/
def dumpsField (f : JField (List String)) : String :=
  match f with
  | .absent => dumpsStrList []
  | .null => "null"
  | .val l => dumpsStrList l

/- Python file.readlines(): lines with their terminating newline kept, the
last line possibly unterminated. -/
def pyReadlines (s : String) : List String :=
  go s.data []
where go : List Char → List Char → List String
  | [], acc => if acc.isEmpty then [] else [⟨acc.reverse⟩]
  | c :: cs, acc =>
    if c = '\n' then ⟨(c :: acc).reverse⟩ :: go cs []
    else go cs (c :: acc)

def joinStr (l : List String) : String := l.foldl (fun a b => a ++ b) ""

def joinSep (sep : String) : List String → String
  | [] => ""
  | x :: xs => xs.foldl (fun a b => a ++ sep ++ b) x

/-! ## NumberingScheme and numbering rules (zettelkasten.py lines 83-185) -/

/- The numbering_scheme.json document as bootstrapped by
ZettelkastenManager.initialize_structure: three counters and the per-bucket
membership lists, plus the per-parent subtopic lists. -/
structure NumberingScheme where
  main_topics : List String
  subtopics : Dict (List String)
  frequently_accessed : List String
  quotes_excerpts : List String
  last_main_topic : Nat
  last_frequent : Nat
  last_quote : Nat
deriving DecidableEq

namespace NumberingScheme

/- The scheme written by initialize_structure on first use. -/
def bootstrap : NumberingScheme :=
  { main_topics := [], subtopics := [], frequently_accessed := [],
    quotes_excerpts := [], last_main_topic := 0, last_frequent := 0,
    last_quote := 0 }

/- Reading self.numbering_scheme[field] for a counter field.  The scheme has
exactly the seven bootstrap keys; a rule whose increment_field names anything
else makes the Python augmented assignment raise (KeyError on a missing key,
TypeError on one of the four list-valued keys). -/
def getCounter (s : NumberingScheme) (f : String) : Option Nat :=
  if f = "last_main_topic" then some s.last_main_topic
  else if f = "last_frequent" then some s.last_frequent
  else if f = "last_quote" then some s.last_quote
  else none

def setCounter (s : NumberingScheme) (f : String) (n : Nat) : NumberingScheme :=
  if f = "last_main_topic" then { s with last_main_topic := n }
  else if f = "last_frequent" then { s with last_frequent := n }
  else if f = "last_quote" then { s with last_quote := n }
  else s

end NumberingScheme

/- One entry of the zettel_numbering_rules table from the configuration
resource: rule.get("prefix", "") and rule.get("increment_field", None). -/
structure NumberingRule where
  pfx : String
  increment_field : Option String
deriving DecidableEq

abbrev Rules := Dict NumberingRule

/- Python truthiness of rule.get("increment_field", None): None and the
empty string are both falsy. -/
def truthyField (o : Option String) : Option String :=
  match o with
  | none => none
  | some f => if f = "" then none else some f

/- Python category.split("/")[0]: the prefix before the first slash. -/
def splitSlashHead (s : String) : String :=
  ⟨s.data.takeWhile (fun c => c ≠ '/')⟩

/- The last character of every list element, or none when some element is
empty (the comprehension item[-1] raises IndexError there). -/
def lastChars : List String → Option (List Char)
  | [] => some []
  | x :: xs =>
    match x.data.getLast?, lastChars xs with
    | some c, some cs => some (c :: cs)
    | _, _ => none

/- ZettelkastenManager.get_next_subtopic_letter (lines 168-185).  Python
item[-1] raises IndexError on an empty string, hence the Except result. -/
def get_next_subtopic_letter (existing : List String) : Except String String :=
  if existing.isEmpty then .ok "a"
  else
    match lastChars existing with
    | none => .error "IndexError"
    | some lasts =>
      let letters := lasts.filter Char.isAlpha
      if letters.isEmpty then .ok "a"
      else
        match (List.range 26).find? (fun i => !letters.contains (Char.ofNat (97 + i))) with
        | some i => .ok ⟨[Char.ofNat (97 + i)]⟩
        | none => .ok "aa"

/- The bucket membership list tracked for the three built-in categories on
the configured-rule path (lines 117-126). -/
def trackMembership (category number : String) (s : NumberingScheme) : NumberingScheme :=
  if category = "main" then { s with main_topics := s.main_topics ++ [number] }
  else if category = "frequent" then
    { s with frequently_accessed := s.frequently_accessed ++ [number] }
  else if category = "quote" then
    { s with quotes_excerpts := s.quotes_excerpts ++ [number] }
  else s

/- ZettelkastenManager.generate_zettel_number (lines 107-166).  The content
argument of the Python method is unused by its body and therefore not a
parameter here.  The in-memory scheme update is returned; the write-through
persistence of the updated scheme is modelled by the allocation session
below. -/
def generate_zettel_number (rules : Rules) (category : String)
    (s : NumberingScheme) : Except String (String × NumberingScheme) :=
  match Dict.find? rules category with
  | some rule =>
    match truthyField rule.increment_field with
    | some f =>
      match s.getCounter f with
      | none => .error "KeyError"
      | some n =>
        let s1 := s.setCounter f (n + 1)
        let number := rule.pfx ++ Nat.repr (n + 1)
        .ok (number, trackMembership category number s1)
    | none => .ok ("unknown", s)
  | none =>
    if category = "subtopic" && Dict.contains rules "subtopic" then
      -- dead branch: category in rules was just ruled out, so the guard
      -- category = subtopic and subtopic in rules can never hold here
      let parent := "1"
      let existing := (Dict.find? s.subtopics parent).getD []
      match get_next_subtopic_letter existing with
      | .error e => .error e
      | .ok letter =>
        let number := parent ++ letter
        .ok (number, { s with
          subtopics := Dict.insert s.subtopics parent (existing ++ [number]) })
    else if category = "frequent" then
      let n := s.last_frequent + 1
      let number := "A" ++ Nat.repr n
      .ok (number, { s with
        last_frequent := n
        frequently_accessed := s.frequently_accessed ++ [number] })
    else if category = "quote" then
      let n := s.last_quote + 1
      let number := "Z" ++ Nat.repr n
      .ok (number, { s with
        last_quote := n
        quotes_excerpts := s.quotes_excerpts ++ [number] })
    else if category = "main" then
      let n := s.last_main_topic + 1
      let number := Nat.repr n
      .ok (number, { s with
        last_main_topic := n
        main_topics := s.main_topics ++ [number] })
    else
      let parent := splitSlashHead category
      let existing := (Dict.find? s.subtopics parent).getD []
      match get_next_subtopic_letter existing with
      | .error e => .error e
      | .ok letter =>
        let number := parent ++ letter
        .ok (number, { s with
          subtopics := Dict.insert s.subtopics parent (existing ++ [number]) })

deriving instance DecidableEq for Except

/-! ## CrossReferenceGraph (zettelkasten.py lines 328-342) -/

abbrev Graph := Dict (List String)

namespace Graph

/- The adjacency list of a key, empty when the key is missing. -/
def adj (g : Graph) (k : String) : List String := (Dict.find? g k).getD []

/- Python: if k not in d: d[k] = []. -/
def ensureKey (g : Graph) (k : String) : Graph :=
  if Dict.contains g k then g else g ++ [(k, [])]

/- Python: if x not in d[k]: d[k].append(x), with k known to be present. -/
def appendIfAbsent (g : Graph) (k x : String) : Graph :=
  if x ∈ adj g k then g else Dict.insert g k (adj g k ++ [x])

/- The body of the per-target loop of add_cross_references: ensure both
keys exist, then append each endpoint to the other side when absent. -/
def xrefStep (g : Graph) (source target : String) : Graph :=
  appendIfAbsent
    (appendIfAbsent (ensureKey (ensureKey g source) target) source target)
    target source

end Graph

/- ZettelkastenManager.add_cross_references (lines 328-342).  The final
save_metadata call persists the whole adjacency map and swallows write
errors; the in-memory map returned here is the authoritative state. -/
def add_cross_references (g : Graph) (source_number : String)
    (target_numbers : List String) : Graph :=
  if target_numbers.isEmpty then g
  else target_numbers.foldl (fun acc target => Graph.xrefStep acc source_number target) g

/- A whole history of add_cross_references calls starting from the empty
adjacency map that a fresh metadata directory yields. -/
def runXrefCalls (calls : List (String × List String)) : Graph :=
  calls.foldl (fun g c => add_cross_references g c.1 c.2) []

/-! ## CardIndex entries and CardStore reads (zettelkasten.py lines 388-411) -/

/- One value of the card_index.json object.  Entries written by
create_zettel_card carry file_path, title, category and created; entries
deserialized from disk may omit or null any key.  An entry with every key
missing models the empty JSON object, which is falsy in Python. -/
structure CardMeta where
  file_path : JField String
  title : JField String
  category : JField String
  tags : JField (List String)
  cross_references : JField (List String)
  created : JField String
deriving DecidableEq

abbrev CardIndex := Dict CardMeta

namespace CardMeta

/- Python falsiness of a dict: true exactly on the empty object.  Entries in
this system only ever carry the six modelled keys. -/
def isEmptyObj (m : CardMeta) : Bool :=
  m.file_path = .absent && m.title = .absent && m.category = .absent &&
    m.tags = .absent && m.cross_references = .absent && m.created = .absent

/- Coercion applied by get_card: a tags or cross_references key that
obj.get reports as None (absent or null) is overwritten with an empty list. -/
def coerceLists (m : CardMeta) : CardMeta :=
  let tg := match m.tags.get? with
    | none => JField.val ([] : List String)
    | some l => JField.val l
  let cr := match m.cross_references.get? with
    | none => JField.val ([] : List String)
    | some l => JField.val l
  { m with tags := tg, cross_references := cr }

end CardMeta

/- ZettelkastenManager.get_card (lines 388-398). -/
def get_card (card_index : CardIndex) (zettel_number : String) : Option CardMeta :=
  match Dict.find? card_index zettel_number with
  | none => none
  | some info =>
    if info.isEmptyObj then none
    else some info.coerceLists

/- Distinct members shared by two tokenized word lists, i.e. the
intersection of the two Python sets. -/
def sharedWords (a b : List String) : List String :=
  a.dedup.filter (fun w => b.contains w)

/- The candidate loop of find_thematic_connections: skip ids absent from
the card index, keep a candidate when its case-folded title word set shares
at least two distinct words with the content word set. -/
def ftc_scan (card_index : CardIndex) (content_words : List String) :
    List String → Except String (List String)
  | [] => .ok []
  | card_number :: rest =>
    match Dict.find? card_index card_number with
    | none => ftc_scan card_index content_words rest
    | some card_info =>
      match card_info.title.getD? "" with
      | none => .error "AttributeError"
      | some t =>
        let card_title_words := pyWords (strLower t)
        let keep := decide ((sharedWords content_words card_title_words).length ≥ 2)
        match ftc_scan card_index content_words rest with
        | .error e => .error e
        | .ok tail => .ok (if keep then card_number :: tail else tail)

/- ZettelkastenManager.find_thematic_connections (lines 344-366).  Python
treats an empty existing_cards list like the None default and scans every
indexed card.  A candidate entry whose title key holds null makes the
Python lower() call raise AttributeError, hence the Except result. -/
def find_thematic_connections (card_index : CardIndex) (content : String)
    (existing_cards : Option (List String)) : Except String (List String) :=
  let cards := match existing_cards with
    | none => Dict.keys card_index
    | some l => if l.isEmpty then Dict.keys card_index else l
  ftc_scan card_index (pyWords (strLower content)) cards

/-! ## Card creation (zettelkasten.py lines 187-326) -/

/- The card_data dictionary built by create_zettel_card.  Both timestamps
come from datetime.now(); the model takes the clock reading as the
parameter now (the two successive readings are not distinguished). -/
structure CardData where
  number : String
  title : String
  content : String
  category : String
  cross_references : List String
  tags : List String
  created : String
  modified : String
deriving DecidableEq

/- The f-string hashtag mangling used for tags. -/
def hashtagOf (t : String) : String := "#" ++ strUnderscore (strStrip t)

/- ZettelkastenManager.generate_ai_thoughts (lines 295-307). -/
def generate_ai_thoughts (tags : List String) (category : String) : String × String :=
  let hashtags := (tags.filter (fun t => t ≠ "")).map hashtagOf
  let hashtags :=
    if category ≠ "" && !hashtags.contains ("#" ++ category) then
      hashtags ++ ["#" ++ category]
    else hashtags
  let hashtags := if hashtags.isEmpty then ["#organization"] else hashtags.take 3
  (joinSep " " hashtags,
   "Die KI empfiehlt, die Inhalte regelmäßig zu überprüfen und nach Bedarf zu unterteilen, um die Übersichtlichkeit zu erhöhen.")

/- ZettelkastenManager.find_zettel_connections (lines 309-326).  An index
entry holding null under tags, title or category makes the Python body
raise (TypeError from set(None) or string concatenation, AttributeError
from None.lower()); Python set iteration order for the hashtag rendering is
unspecified, the model keeps the stored list order after deduplication. -/
def fzc_scan (card_number : String) (this_tags this_title_words : List String) :
    List (String × CardMeta) → Except String (List (String × String × String))
  | [] => .ok []
  | (num, info) :: rest =>
    if num = card_number then fzc_scan card_number this_tags this_title_words rest
    else
      match info.tags.getD? [] with
      | none => .error "TypeError"
      | some tagsl =>
        match info.title.getD? "" with
        | none => .error "AttributeError"
        | some ttl =>
          let title_words := pySplitWs (strLower ttl)
          let overlap := this_tags.any (fun w => tagsl.contains w)
            || this_title_words.any (fun w => title_words.contains w)
          if overlap then
            match info.category.getD? "" with
            | none => .error "TypeError"
            | some cat =>
              let hashtags := joinSep " " ((tagsl.dedup.take 3).map hashtagOf)
              let desc := joinSep " " ((pySplitWs (ttl ++ " " ++ cat)).take 7)
              match fzc_scan card_number this_tags this_title_words rest with
              | .error e => .error e
              | .ok tl => .ok ((num, hashtags, desc) :: tl)
          else fzc_scan card_number this_tags this_title_words rest

def find_zettel_connections (card_data : CardData) (card_index : CardIndex) :
    Except String (List (String × String × String)) :=
  fzc_scan card_data.number card_data.tags
    (pySplitWs (strLower card_data.title)) card_index

/- ZettelkastenManager.format_card_content (lines 262-293). -/
def format_card_content (card_data : CardData) (card_index : CardIndex) :
    Except String String :=
  match find_zettel_connections card_data card_index with
  | .error e => .error e
  | .ok connections =>
    let ai := generate_ai_thoughts card_data.tags card_data.category
    let conn_text :=
      if connections.isEmpty then "- (Keine direkten Verbindungen gefunden.)\n"
      else joinStr (connections.map (fun c =>
        "- **#" ++ c.1 ++ "**: " ++ c.2.1 ++ " – " ++ c.2.2 ++ "\n"))
    .ok ("# " ++ card_data.title ++ "\n\n"
      ++ "**Zettel Number:** " ++ card_data.number ++ "  \n"
      ++ "**Category:** " ++ card_data.category ++ "  \n"
      ++ "**Created:** " ++ card_data.created ++ "  \n"
      ++ "**Modified:** " ++ card_data.modified ++ "  \n\n"
      ++ "---\n\n"
      ++ "## Kurz-Zusammenfassung\n"
      ++ strStrip card_data.content ++ "\n\n---\n\n"
      ++ "## Weitere Gedanken\n\n"
      ++ "### User\n"
      ++ "- #review #structure #future\n"
      ++ "- (Hier kann der Benutzer eigene Gedanken, Hinweise oder Fragen eintragen.)\n\n"
      ++ "### AI\n"
      ++ "- " ++ ai.1 ++ "\n"
      ++ "- " ++ ai.2 ++ "\n\n---\n\n"
      ++ "## Verbindungen zu anderen Zetteln\n\n"
      ++ conn_text
      ++ "\n---\n")

/- The mutable state of a ZettelkastenManager that card creation touches
(thematic_connections is loaded but never used by these operations). -/
structure Store where
  cross_references : Graph
  numbering_scheme : NumberingScheme
  card_index : CardIndex
deriving DecidableEq

/- The store of a manager over a fresh base directory: empty metadata
documents plus the bootstrapped numbering scheme. -/
def Store.fresh : Store :=
  { cross_references := [], numbering_scheme := .bootstrap, card_index := [] }

/- Which of the fallible file-system operations of one create_zettel_card
call succeed.  mkdir_ok covers the folder creation on line 223, which the
source performs before entering its try block. -/
structure IOFlags where
  mkdir_ok : Bool
  write_card_ok : Bool
  extra_mkdir_ok : Bool
  write_extra_ok : Bool
deriving DecidableEq

/- All file-system operations succeed. -/
def IOFlags.allOk : IOFlags := ⟨true, true, true, true⟩

/- A normal return of create_zettel_card: either the card_data record with
the updated store, or the error-marker object built by the except branch
(lines 258-260), in which case only the numbering scheme has advanced. -/
inductive CreateOutcome where
  | card : CardData → Store → CreateOutcome
  | errorResult : String → Store → CreateOutcome
deriving DecidableEq

/- ZettelkastenManager.create_zettel_card (lines 187-260).  An Except.error
models a Python exception escaping the call: number generation, the mkdir
of the target folder and the card formatting all run outside the try block.
Inside the try block only the card write, the optional extra-folder mkdir
and write can raise; the metadata saves swallow their own errors. -/
def create_zettel_card (rules : Rules) (flags : IOFlags) (now : String)
    (st : Store) (content title : String) (category : String)
    (cross_references : Option (List String)) (tags : Option (List String))
    (extra_folder_path : Option String) : Except String CreateOutcome :=
  let tagsv := tags.getD []
  let crossRefs := cross_references.getD []
  match generate_zettel_number rules category st.numbering_scheme with
  | .error e => .error e
  | .ok (zettel_number, scheme1) =>
    let st1 : Store := { st with numbering_scheme := scheme1 }
    let card_data : CardData :=
      ⟨zettel_number, title, content, category, crossRefs, tagsv, now, now⟩
    let folder_path :=
      if category = "frequent" then "X/A"
      else if category = "quote" then "X/Z"
      else if category.data.contains '/' then "X/" ++ splitSlashHead category
      else "X/" ++ category
    if !flags.mkdir_ok then .error "OSError"
    else
      let card_file := folder_path ++ "/" ++ zettel_number ++ ".md"
      match format_card_content card_data st1.card_index with
      | .error e => .error e
      | .ok _card_content =>
        if !flags.write_card_ok then
          .ok (.errorResult "card write failed" st1)
        else if extra_folder_path.isSome && !flags.extra_mkdir_ok then
          .ok (.errorResult "extra folder mkdir failed" st1)
        else if extra_folder_path.isSome && !flags.write_extra_ok then
          .ok (.errorResult "extra write failed" st1)
        else
          let entry : CardMeta :=
            ⟨.val card_file, .val title, .val category, .absent, .absent, .val now⟩
          let index1 := Dict.insert st1.card_index zettel_number entry
          let graph1 := add_cross_references st1.cross_references zettel_number crossRefs
          .ok (.card card_data
            { st1 with card_index := index1, cross_references := graph1 })

/-! ## SearchIndex (zettel_indexer.py) -/

/- One row of the zettel_index table.  A column is an Option when the
Python value bound into the REPLACE statement can be None (stored as SQL
NULL); the tags and cross_references columns hold the json.dumps text. -/
structure IndexRow where
  title : Option String
  category : Option String
  tagsText : String
  crossRefsText : String
  file_path : String
  content_preview : String
deriving DecidableEq

/- The file system visible to the indexer: path to content.  A path missing
from the dictionary is a file for which Path.exists is false. -/
abbrev FileSys := Dict String

/- The per-card body shared by index_all and update_card (lines 44-66 and
74-95): read the metadata fields, back-fill a missing title from the first
non-blank line of the backing file, take the first ten lines truncated to
500 characters as the preview.  meta["file_path"] raises KeyError when the
key is absent and the Path constructor rejects None, hence the Except. -/
def rowOfMeta (fs : FileSys) (meta : CardMeta) : Except String IndexRow :=
  match meta.file_path with
  | .absent => .error "KeyError"
  | .null => .error "TypeError"
  | .val file_path =>
    let title0 := meta.title.getD? ""
    let category0 := meta.category.getD? ""
    let tagsText := dumpsField meta.tags
    let crossRefsText := dumpsField meta.cross_references
    match Dict.find? fs file_path with
    | none => .ok ⟨title0, category0, tagsText, crossRefsText, file_path, ""⟩
    | some content =>
      let lines := pyReadlines content
      let title1 :=
        if title0 = some "" || title0 = none then
          match lines.find? (fun line => strStrip line ≠ "") with
          | some line => some (strStrip line)
          | none => title0
        else title0
      let preview := strTake (joinStr (lines.take 10)) 500
      .ok ⟨title1, category0, tagsText, crossRefsText, file_path, preview⟩

/- The state of a ZettelIndexer instance: the card-index snapshot taken
once at construction (self.card_index), and the zettel_index table of the
backing database, keyed by the zettel_number primary key. -/
structure Indexer where
  card_index : CardIndex
  db : Dict IndexRow
deriving DecidableEq

/- ZettelIndexer.index_all (lines 40-67): delete every row, then REPLACE
one row per snapshot entry.  A KeyError part-way through the loop is
modelled as the bare error (the partially rebuilt table of the real
connection is not represented on the error path). -/
def indexRows (fs : FileSys) : List (String × CardMeta) → Dict IndexRow →
    Except String (Dict IndexRow)
  | [], db => .ok db
  | (zettel_number, meta) :: rest, db =>
    match rowOfMeta fs meta with
    | .error e => .error e
    | .ok row => indexRows fs rest (Dict.insert db zettel_number row)

def index_all (fs : FileSys) (ix : Indexer) : Except String Indexer :=
  match indexRows fs ix.card_index [] with
  | .error e => .error e
  | .ok db => .ok { ix with db := db }

/- ZettelIndexer.update_card (lines 69-96): a zettel_number that the
construction-time snapshot does not know (or maps to a falsy empty entry)
returns with the table untouched. -/
def update_card (fs : FileSys) (ix : Indexer) (zettel_number : String) :
    Except String Indexer :=
  match Dict.find? ix.card_index zettel_number with
  | none => .ok ix
  | some meta =>
    if meta.isEmptyObj then .ok ix
    else
      match rowOfMeta fs meta with
      | .error e => .error e
      | .ok row => .ok { ix with db := Dict.insert ix.db zettel_number row }

/- The WHERE clause of ZettelIndexer.search: LIKE patterns built as percent
query percent against title, category or tags.  SQLite LIKE is
case-insensitive on ASCII and a NULL column never matches. -/
def rowMatches (row : IndexRow) (query : String) : Bool :=
  (match row.title with
   | none => false
   | some t => strContainsCI t query)
  || (match row.category with
      | none => false
      | some c => strContainsCI c query)
  || strContainsCI row.tagsText query

/- ZettelIndexer.search (lines 98-117), reduced to the selected keys: the
full row set of the table filtered by the WHERE clause. -/
def search (db : Dict IndexRow) (query : String) : List (String × IndexRow) :=
  db.filter (fun r => rowMatches r.2 query)

/-! ## Allocation sessions: write-through persistence and reloads -/

/- One observable event against the numbering state: an allocation request
for a category, or a re-read of numbering_scheme.json from disk (a fresh
manager loading the persisted state). -/
inductive AllocEv where
  | alloc : String → AllocEv
  | reload : AllocEv
deriving DecidableEq

/- The in-memory scheme together with the persisted copy.  A manager built
over an existing metadata directory starts with the two equal. -/
structure AllocSession where
  mem : NumberingScheme
  disk : NumberingScheme
deriving DecidableEq

/- The configured increment field of a category, after rule lookup and
Python truthiness. -/
def incFieldOf (rules : Rules) (category : String) : Option String :=
  match Dict.find? rules category with
  | some rule => truthyField rule.increment_field
  | none => none

/- The configured id prefix of a category. -/
def pfxOf (rules : Rules) (category : String) : String :=
  match Dict.find? rules category with
  | some rule => rule.pfx
  | none => ""

/- Counter read with default, for stating monotonicity uniformly. -/
def cval (s : NumberingScheme) (f : String) : Nat := (s.getCounter f).getD 0

/- One session step.  An allocation runs generate_zettel_number on the
in-memory scheme and, when it returns, persists the updated scheme
(save_metadata on line 165); an exception leaves both copies untouched.
The step also reports the allocation when the category took the
configured-increment path, as the triple of category, returned id, and the
bucket counter after the increment.  A reload replaces the in-memory scheme
with the persisted one. -/
def allocStep (rules : Rules) (st : AllocSession) (ev : AllocEv) :
    AllocSession × Option (String × String × Nat) :=
  match ev with
  | .reload => ({ st with mem := st.disk }, none)
  | .alloc category =>
    match generate_zettel_number rules category st.mem with
    | .error _ => (st, none)
    | .ok (number, s1) =>
      let out := match incFieldOf rules category with
        | some f => some (category, number, cval s1 f)
        | none => none
      (⟨s1, s1⟩, out)

/- A whole session: the final state and the chronological list of reported
configured-increment allocations. -/
def runAllocs (rules : Rules) (evs : List AllocEv) (st : AllocSession) :
    AllocSession × List (String × String × Nat) :=
  match evs with
  | [] => (st, [])
  | ev :: rest =>
    let p := allocStep rules st ev
    let q := runAllocs rules rest p.1
    (q.1, (match p.2 with | none => [] | some o => [o]) ++ q.2)

/- The allocations a session reports for one bucket category. -/
def allocTrace (rules : Rules) (evs : List AllocEv) (st : AllocSession)
    (category : String) : List (String × String × Nat) :=
  (runAllocs rules evs st).2.filter (fun t => t.1 = category)

/-! ## Wellformedness of configuration and stored state -/

/- Every configured increment field names one of the three counters of the
numbering scheme; anything else makes the Python augmented assignment
raise.  The table built by the internal fallback (the empty table) is
trivially wellformed. -/
def wfRules (rules : Rules) : Bool :=
  rules.all (fun p =>
    match truthyField p.2.increment_field with
    | some f => f = "last_main_topic" || f = "last_frequent" || f = "last_quote"
    | none => true)

/- No recorded subtopic id is the empty string (an empty string would make
item[-1] raise IndexError inside get_next_subtopic_letter). -/
def wfScheme (s : NumberingScheme) : Bool :=
  s.subtopics.all (fun p => p.2.all (fun x => x ≠ ""))

/- A card-index entry none of whose scanned keys holds null; every entry
written by create_zettel_card is of this shape. -/
def wfEntry (m : CardMeta) : Bool :=
  m.tags.notNull && m.title.notNull && m.category.notNull

def wfIndex (d : CardIndex) : Bool := d.all (fun p => wfEntry p.2)

/- The twenty-six children 3a .. 3z of parent 3, the exhaustion example of
the specification. -/
def childrenAZ : List String :=
  (List.range 26).map (fun i => "3" ++ (⟨[Char.ofNat (97 + i)]⟩ : String))

/- The invariant of the cross-reference adjacency map: symmetric edges and
duplicate-free adjacency lists. -/
def Graph.Good (g : Graph) : Prop :=
  (∀ a b, a ∈ Graph.adj g b ↔ b ∈ Graph.adj g a) ∧ (∀ k, (Graph.adj g k).Nodup)

/-! ## Concrete scenario data used by the theorems below -/

/- A card present when the indexer was constructed, and a card created in
the card store afterwards. -/
def riversMeta : CardMeta :=
  ⟨.val "X/1/1.md", .val "Rivers", .val "main", .absent, .absent, .val "t1"⟩

def mountainsMeta : CardMeta :=
  ⟨.val "X/2/2.md", .val "Mountains", .val "main", .absent, .absent, .val "t2"⟩

/- The card-index snapshot an indexer loaded before the second card
existed, and the snapshot a freshly constructed indexer loads afterwards. -/
def snapOld : CardIndex := [("1", riversMeta)]

def snapNew : CardIndex := [("1", riversMeta), ("2", mountainsMeta)]

/- The rows the indexer builds for these cards over an empty file system. -/
def riversRow : IndexRow :=
  ⟨some "Rivers", some "main", "[]", "[]", "X/1/1.md", ""⟩

def mountainsRow : IndexRow :=
  ⟨some "Mountains", some "main", "[]", "[]", "X/2/2.md", ""⟩

/- A card index holding one card titled alpha beta. -/
def alphaBetaIndex : CardIndex :=
  [("1", ⟨.val "X/1/1.md", .val "alpha beta", .val "main", .absent, .absent, .val "t1"⟩)]

/- The empty JSON object stored as a card-index entry. -/
def emptyMeta : CardMeta := ⟨.absent, .absent, .absent, .absent, .absent, .absent⟩

/- The end-to-end creation sequence of the specification, on a fresh store
with the empty rule table that a missing rules resource yields: the ids of
three cards created with categories main, main, and the subtopic parent 1. -/
def c9run : Option (List String) :=
  match create_zettel_card [] .allOk "t1" Store.fresh "Notes on rivers" "Rivers"
      "main" none none none with
  | .ok (.card c1 st1) =>
    match create_zettel_card [] .allOk "t2" st1 "More notes" "Streams"
        "main" none none none with
    | .ok (.card c2 st2) =>
      match create_zettel_card [] .allOk "t3" st2 "Sub notes" "Brooks"
          "1" none none none with
      | .ok (.card c3 _) => some [c1.number, c2.number, c3.number]
      | _ => none
    | _ => none
  | _ => none

/-! ## Decimal rendering is injective (ids built from distinct counters differ) -/

lemma toDigitsCore_eq_digits (f : Nat) : ∀ n acc, 0 < n → n < 10 ^ f →
    Nat.toDigitsCore 10 f n acc =
      ((Nat.digits 10 n).reverse.map Nat.digitChar) ++ acc := by
  induction f with
  | zero =>
    intro n acc h1 h2
    simp at h2
    omega
  | succ f ih =>
    intro n acc h1 h2
    rw [Nat.toDigitsCore]
    by_cases hn : n / 10 = 0
    · simp only [hn, if_true]
      rw [Nat.digits_def' (by norm_num : (1:Nat) < 10) h1, hn]
      simp
    · simp only [hn, if_false]
      rw [ih (n / 10) (Nat.digitChar (n % 10) :: acc) (Nat.pos_of_ne_zero hn)
        ((Nat.div_lt_iff_lt_mul (by norm_num : (0:Nat) < 10)).mpr
          (by rw [← pow_succ]; exact h2))]
      rw [Nat.digits_def' (by norm_num : (1:Nat) < 10) h1]
      simp

lemma repr_eq_digits (n : Nat) (h : 0 < n) :
    Nat.repr n = ((Nat.digits 10 n).reverse.map Nat.digitChar).asString := by
  have hlt : n < 10 ^ (n + 1) :=
    lt_of_lt_of_le (Nat.lt_pow_self (by norm_num) n)
      (Nat.pow_le_pow_right (by norm_num) (Nat.le_succ n))
  rw [Nat.repr, Nat.toDigits, toDigitsCore_eq_digits (n + 1) n [] h hlt]
  simp

lemma digitChar_inj_lt : ∀ a, a < 10 → ∀ b, b < 10 →
    Nat.digitChar a = Nat.digitChar b → a = b := by decide

lemma map_digitChar_inj : ∀ l1 l2 : List Nat, (∀ x ∈ l1, x < 10) →
    (∀ x ∈ l2, x < 10) → l1.map Nat.digitChar = l2.map Nat.digitChar → l1 = l2 := by
  intro l1
  induction l1 with
  | nil => intro l2 _ _ h; cases l2 <;> simp_all
  | cons a l ih =>
    intro l2 h1 h2 h
    cases l2 with
    | nil => simp at h
    | cons b m =>
      simp only [List.map_cons, List.cons.injEq] at h
      have ha : a = b := digitChar_inj_lt a (h1 a (by simp)) b (h2 b (by simp)) h.1
      have : l = m := ih m (fun x hx => h1 x (by simp [hx]))
        (fun x hx => h2 x (by simp [hx])) h.2
      simp [ha, this]

lemma digits_reverse_ne_zero_singleton (n : Nat) (hn : 0 < n) :
    (Nat.digits 10 n).reverse.map Nat.digitChar ≠ ['0'] := by
  intro h2
  have hd : Nat.digits 10 n = [0] := by
    rcases hrev : (Nat.digits 10 n).reverse with _ | ⟨d, ds⟩
    · rw [hrev] at h2; simp at h2
    · rw [hrev] at h2
      cases ds with
      | nil =>
        have hch : Nat.digitChar d = '0' := by simpa using h2
        have hmem : d ∈ Nat.digits 10 n := by
          have : d ∈ (Nat.digits 10 n).reverse := by rw [hrev]; simp
          simpa using this
        have hd10 : d < 10 := Nat.digits_lt_base (by norm_num) hmem
        have hd0 : d = 0 := digitChar_inj_lt d hd10 0 (by norm_num)
          (by rw [hch]; rfl)
        have hx : (Nat.digits 10 n).reverse = [0] := by rw [hrev, hd0]
        calc Nat.digits 10 n = (Nat.digits 10 n).reverse.reverse := by simp
          _ = [0] := by rw [hx]; rfl
      | cons e es => simp at h2
  have : n = 0 := by
    have := Nat.ofDigits_digits 10 n
    rw [hd] at this
    simpa [Nat.ofDigits] using this.symm
  omega

lemma natRepr_inj {m n : Nat} (h : Nat.repr m = Nat.repr n) : m = n := by
  rcases Nat.eq_zero_or_pos m with hm | hm
  · rcases Nat.eq_zero_or_pos n with hn | hn
    · omega
    · exfalso
      subst hm
      rw [repr_eq_digits n hn] at h
      have h2 : (Nat.digits 10 n).reverse.map Nat.digitChar = ['0'] := by
        have := congrArg String.data h
        simp only [Nat.repr, Nat.toDigits, Nat.toDigitsCore, List.asString] at this
        exact this.symm
      exact digits_reverse_ne_zero_singleton n hn h2
  · rcases Nat.eq_zero_or_pos n with hn | hn
    · exfalso
      subst hn
      rw [repr_eq_digits m hm] at h
      have h2 : (Nat.digits 10 m).reverse.map Nat.digitChar = ['0'] := by
        have := congrArg String.data h
        simpa [Nat.repr, Nat.toDigits, Nat.toDigitsCore, List.asString] using this
      exact digits_reverse_ne_zero_singleton m hm h2
    · rw [repr_eq_digits m hm, repr_eq_digits n hn] at h
      have h2 : (Nat.digits 10 m).reverse.map Nat.digitChar =
          (Nat.digits 10 n).reverse.map Nat.digitChar := by
        have := congrArg String.data h
        simpa [List.asString] using this
      have h3 : (Nat.digits 10 m).reverse = (Nat.digits 10 n).reverse := by
        refine map_digitChar_inj _ _ ?_ ?_ h2
        · intro x hx
          exact Nat.digits_lt_base (by norm_num) (by simpa using hx)
        · intro x hx
          exact Nat.digits_lt_base (by norm_num) (by simpa using hx)
      have h4 : Nat.digits 10 m = Nat.digits 10 n := by
        have := congrArg List.reverse h3
        simpa using this
      calc m = Nat.ofDigits 10 (Nat.digits 10 m) := (Nat.ofDigits_digits 10 m).symm
        _ = Nat.ofDigits 10 (Nat.digits 10 n) := by rw [h4]
        _ = n := Nat.ofDigits_digits 10 n

/-! ## Dictionary and graph lemmas -/

lemma Dict.find?_append {α : Type} (d1 d2 : Dict α) (j : String) :
    Dict.find? (d1 ++ d2) j =
      match Dict.find? d1 j with
      | some v => some v
      | none => Dict.find? d2 j := by
  induction d1 with
  | nil => simp [Dict.find?]
  | cons p rest ih =>
    by_cases h : p.1 = j
    · cases p; simp_all [Dict.find?]
    · cases p; simp_all [Dict.find?]

lemma Dict.find?_insert_self {α : Type} (d : Dict α) (k : String) (v : α) :
    Dict.find? (Dict.insert d k v) k = some v := by
  induction d with
  | nil => simp [Dict.insert, Dict.find?]
  | cons p rest ih =>
    by_cases h : p.1 = k
    · cases p; simp_all [Dict.insert, Dict.find?]
    · cases p; simp_all [Dict.insert, Dict.find?]

lemma Dict.find?_insert_other {α : Type} (d : Dict α) (k j : String) (v : α)
    (h : j ≠ k) : Dict.find? (Dict.insert d k v) j = Dict.find? d j := by
  have hkj : ¬ k = j := fun he => h he.symm
  induction d with
  | nil => simp [Dict.insert, Dict.find?, hkj]
  | cons p rest ih =>
    by_cases hp : p.1 = k
    · cases p; simp_all [Dict.insert, Dict.find?, hkj]
    · cases p; simp_all [Dict.insert, Dict.find?]

namespace Graph

lemma adj_ensureKey (g : Graph) (k j : String) : adj (ensureKey g k) j = adj g j := by
  unfold ensureKey
  by_cases h : Dict.contains g k = true
  · simp [h]
  · rw [if_neg h]
    simp only [adj]
    rw [Dict.find?_append]
    rcases hf : Dict.find? g j with _ | v
    · by_cases hkj : k = j <;> simp [Dict.find?, hkj]
    · simp

lemma contains_ensureKey (g : Graph) (k : String) :
    Dict.contains (ensureKey g k) k = true := by
  unfold ensureKey
  by_cases h : Dict.contains g k = true
  · rw [if_pos h]; exact h
  · rw [if_neg h]
    simp only [Dict.contains]
    rw [Dict.find?_append]
    rcases hf : Dict.find? g k with _ | v
    · simp [Dict.find?]
    · simp

lemma adj_insert_self (g : Graph) (k : String) (l : List String) :
    adj (Dict.insert g k l) k = l := by
  simp [adj, Dict.find?_insert_self]

lemma adj_insert_other (g : Graph) (k j : String) (l : List String) (h : j ≠ k) :
    adj (Dict.insert g k l) j = adj g j := by
  simp [adj, Dict.find?_insert_other g k j l h]

lemma adj_appendIfAbsent_self (g : Graph) (k x : String) :
    adj (appendIfAbsent g k x) k =
      if x ∈ adj g k then adj g k else adj g k ++ [x] := by
  unfold appendIfAbsent
  by_cases h : x ∈ adj g k <;> simp [h, adj_insert_self]

lemma adj_appendIfAbsent_other (g : Graph) (k x j : String) (h : j ≠ k) :
    adj (appendIfAbsent g k x) j = adj g j := by
  unfold appendIfAbsent
  by_cases hm : x ∈ adj g k <;> simp [hm, adj_insert_other g k j _ h]

lemma appendIfAbsent_of_mem (g : Graph) (k x : String) (h : x ∈ adj g k) :
    appendIfAbsent g k x = g := by
  simp [appendIfAbsent, h]

lemma ensureKey_of_contains (g : Graph) (k : String) (h : Dict.contains g k = true) :
    ensureKey g k = g := by
  simp [ensureKey, h]

lemma contains_of_adj_mem (g : Graph) (k x : String) (h : x ∈ adj g k) :
    Dict.contains g k = true := by
  rcases hf : Dict.find? g k with _ | v
  · simp [adj, hf] at h
  · simp [Dict.contains, hf]

lemma adj_xrefStep_ne (g : Graph) (s t : String) (hst : s ≠ t) (j : String) :
    adj (xrefStep g s t) j =
      if j = s then (if t ∈ adj g s then adj g s else adj g s ++ [t])
      else if j = t then (if s ∈ adj g t then adj g t else adj g t ++ [s])
      else adj g j := by
  have hts : t ≠ s := fun h => hst h.symm
  unfold xrefStep
  by_cases hjs : j = s
  · subst hjs
    rw [adj_appendIfAbsent_other _ _ _ _ hst, adj_appendIfAbsent_self]
    simp [adj_ensureKey]
  · by_cases hjt : j = t
    · subst hjt
      rw [adj_appendIfAbsent_self, adj_appendIfAbsent_other _ _ _ _ hts]
      simp [adj_ensureKey, hjs]
    · rw [adj_appendIfAbsent_other _ _ _ _ hjt, adj_appendIfAbsent_other _ _ _ _ hjs]
      simp [adj_ensureKey, hjs, hjt]

lemma adj_xrefStep_self (g : Graph) (s j : String) :
    adj (xrefStep g s s) j =
      if j = s then (if s ∈ adj g s then adj g s else adj g s ++ [s])
      else adj g j := by
  unfold xrefStep
  rw [ensureKey_of_contains _ _ (contains_ensureKey g s)]
  by_cases hjs : j = s
  · subst hjs
    by_cases h : j ∈ adj (ensureKey g j) j
    · rw [appendIfAbsent_of_mem _ _ _ h, appendIfAbsent_of_mem _ _ _ h]
      rw [adj_ensureKey] at h
      simp [adj_ensureKey, h]
    · rw [adj_appendIfAbsent_self, adj_appendIfAbsent_self]
      rw [adj_ensureKey] at h ⊢
      simp [adj_ensureKey, h]
  · by_cases h : s ∈ adj (ensureKey g s) s
    · rw [appendIfAbsent_of_mem _ _ _ h, appendIfAbsent_of_mem _ _ _ h]
      simp [adj_ensureKey, hjs]
    · rw [adj_appendIfAbsent_other _ _ _ _ hjs, adj_appendIfAbsent_other _ _ _ _ hjs]
      simp [adj_ensureKey, hjs]

end Graph

lemma mem_ite_append {x y : String} {l : List String} :
    (x ∈ if y ∈ l then l else l ++ [y]) ↔ x ∈ l ∨ x = y := by
  by_cases h : y ∈ l
  · rw [if_pos h]
    constructor
    · exact Or.inl
    · rintro (hx | rfl)
      · exact hx
      · exact h
  · rw [if_neg h]
    simp

lemma mem_adj_xrefStep (g : Graph) (s t j x : String) :
    x ∈ Graph.adj (Graph.xrefStep g s t) j ↔
      x ∈ Graph.adj g j ∨ (j = s ∧ x = t) ∨ (j = t ∧ x = s) := by
  by_cases hst : s = t
  · subst hst
    rw [Graph.adj_xrefStep_self]
    by_cases hjs : j = s
    · subst hjs
      rw [if_pos rfl, mem_ite_append]
      constructor
      · rintro (hx | rfl)
        · exact Or.inl hx
        · exact Or.inr (Or.inl ⟨rfl, rfl⟩)
      · rintro (hx | ⟨_, rfl⟩ | ⟨_, rfl⟩)
        · exact Or.inl hx
        · exact Or.inr rfl
        · exact Or.inr rfl
    · rw [if_neg hjs]
      simp [hjs]
  · have hts : ¬ t = s := fun h2 => hst h2.symm
    rw [Graph.adj_xrefStep_ne g s t hst]
    by_cases hjs : j = s
    · rw [if_pos hjs, mem_ite_append]
      have hjt : ¬ j = t := by rw [hjs]; exact hst
      simp [hjs, hjt, hst]
    · rw [if_neg hjs]
      by_cases hjt : j = t
      · rw [if_pos hjt, mem_ite_append]
        simp [hjs, hjt, hts]
      · rw [if_neg hjt]
        simp [hjs, hjt]

lemma good_xrefStep {g : Graph} (h : Graph.Good g) (s t : String) :
    Graph.Good (Graph.xrefStep g s t) := by
  obtain ⟨hsym, hnd⟩ := h
  constructor
  · intro a b
    rw [mem_adj_xrefStep, mem_adj_xrefStep, hsym a b]
    tauto
  · intro k
    by_cases hst : s = t
    · subst hst
      rw [Graph.adj_xrefStep_self]
      by_cases hks : k = s
      · rw [if_pos hks]
        by_cases hm : s ∈ Graph.adj g s
        · rw [if_pos hm]; exact hnd s
        · rw [if_neg hm]
          simp [List.nodup_append, hnd s, hm]
      · rw [if_neg hks]; exact hnd k
    · rw [Graph.adj_xrefStep_ne g s t hst]
      by_cases hks : k = s
      · rw [if_pos hks]
        by_cases hm : t ∈ Graph.adj g s
        · rw [if_pos hm]; exact hnd s
        · rw [if_neg hm]
          simp [List.nodup_append, hnd s, hm]
      · rw [if_neg hks]
        by_cases hkt : k = t
        · rw [if_pos hkt]
          by_cases hm : s ∈ Graph.adj g t
          · rw [if_pos hm]; exact hnd t
          · rw [if_neg hm]
            simp [List.nodup_append, hnd t, hm]
        · rw [if_neg hkt]; exact hnd k

lemma good_foldl_xrefSteps (s : String) :
    ∀ (ts : List String) (g : Graph), Graph.Good g →
      Graph.Good (ts.foldl (fun acc target => Graph.xrefStep acc s target) g) := by
  intro ts
  induction ts with
  | nil => intro g hg; exact hg
  | cons t rest ih =>
    intro g hg
    exact ih (Graph.xrefStep g s t) (good_xrefStep hg s t)

lemma good_add_cross_references {g : Graph} (hg : Graph.Good g)
    (s : String) (ts : List String) : Graph.Good (add_cross_references g s ts) := by
  unfold add_cross_references
  by_cases h : ts.isEmpty
  · rw [if_pos h]; exact hg
  · rw [if_neg h]; exact good_foldl_xrefSteps s ts g hg

lemma good_empty : Graph.Good [] := by
  constructor
  · intro a b; simp [Graph.adj, Dict.find?]
  · intro k; simp [Graph.adj, Dict.find?]

lemma good_runXrefCalls (calls : List (String × List String)) :
    Graph.Good (runXrefCalls calls) := by
  unfold runXrefCalls
  have main : ∀ (cs : List (String × List String)) (g : Graph), Graph.Good g →
      Graph.Good (cs.foldl (fun g c => add_cross_references g c.1 c.2) g) := by
    intro cs
    induction cs with
    | nil => intro g hg; exact hg
    | cons c rest ih =>
      intro g hg
      exact ih _ (good_add_cross_references hg c.1 c.2)
  exact main calls [] good_empty

lemma xrefStep_of_mem {g : Graph} (h : Graph.Good g) {s t : String}
    (hmem : t ∈ Graph.adj g s) : Graph.xrefStep g s t = g := by
  have hcs : Dict.contains g s = true := Graph.contains_of_adj_mem g s t hmem
  have hmem2 : s ∈ Graph.adj g t := (h.1 t s).mp hmem
  have hct : Dict.contains g t = true := Graph.contains_of_adj_mem g t s hmem2
  unfold Graph.xrefStep
  rw [Graph.ensureKey_of_contains _ _ hcs, Graph.ensureKey_of_contains _ _ hct,
    Graph.appendIfAbsent_of_mem _ _ _ hmem, Graph.appendIfAbsent_of_mem _ _ _ hmem2]

/-- C2: after any sequence of add_cross_references calls starting from an
empty adjacency map, every edge is symmetric (A appears in the adjacency
list of B iff B appears in that of A), no adjacency list contains a
duplicate, re-adding an existing edge changes nothing, and the concrete
sequence addEdges A [B, C] then addEdges B [A] yields exactly the two
symmetric edges A-B and A-C. -/
theorem c2_cross_reference_graph_invariants :
    (∀ calls a b, a ∈ Graph.adj (runXrefCalls calls) b ↔
        b ∈ Graph.adj (runXrefCalls calls) a)
    ∧ (∀ calls k, (Graph.adj (runXrefCalls calls) k).Nodup)
    ∧ (∀ calls a b, b ∈ Graph.adj (runXrefCalls calls) a →
        add_cross_references (runXrefCalls calls) a [b] = runXrefCalls calls)
    ∧ runXrefCalls [("A", ["B", "C"]), ("B", ["A"])] =
        [("A", ["B", "C"]), ("B", ["A"]), ("C", ["A"])] := by
  refine ⟨?_, ?_, ?_, ?_⟩
  · intro calls a b
    exact (good_runXrefCalls calls).1 a b
  · intro calls k
    exact (good_runXrefCalls calls).2 k
  · intro calls a b hmem
    unfold add_cross_references
    rw [if_neg (by simp)]
    simp only [List.foldl_cons, List.foldl_nil]
    exact xrefStep_of_mem (good_runXrefCalls calls) hmem
  · decide

/-- C2 witness: the idempotence conjunct applied to the concrete history
with the single edge A-B. -/
theorem c2_cross_reference_graph_invariants_witness :
    ("B" ∈ Graph.adj (runXrefCalls [("A", ["B"])]) "A")
    ∧ add_cross_references (runXrefCalls [("A", ["B"])]) "A" ["B"] =
        runXrefCalls [("A", ["B"])] :=
  ⟨by decide,
    c2_cross_reference_graph_invariants.2.2.1 [("A", ["B"])] "A" "B" (by decide)⟩

/-! ## Subtopic letter allocation (C3) -/

lemma lastChars_total : ∀ (l : List String), (∀ x ∈ l, x ≠ "") →
    ∃ cs, lastChars l = some cs := by
  intro l
  induction l with
  | nil => intro _; exact ⟨[], rfl⟩
  | cons x xs ih =>
    intro h
    obtain ⟨cs, hcs⟩ := ih (fun y hy => h y (by simp [hy]))
    have hx : x.data ≠ [] := by
      intro hd
      apply h x (by simp)
      cases x
      simp only at hd
      rw [hd]
    have hsome : x.data.getLast?.isSome := List.getLast?_isSome.mpr hx
    rcases hl : x.data.getLast? with _ | c
    · rw [hl] at hsome; simp at hsome
    · exact ⟨c :: cs, by simp [lastChars, hl, hcs]⟩

lemma lastChars_mem : ∀ (l : List String) (cs : List Char),
    lastChars l = some cs →
      ∀ c, c ∈ cs ↔ ∃ x ∈ l, x.data.getLast? = some c := by
  intro l
  induction l with
  | nil =>
    intro cs h c
    simp [lastChars] at h
    subst h
    simp
  | cons x xs ih =>
    intro cs h c
    rcases hl : x.data.getLast? with _ | c0
    · simp [lastChars, hl] at h
    · rcases hxs : lastChars xs with _ | cs0
      · simp [lastChars, hl, hxs] at h
      · simp only [lastChars, hl, hxs, Option.some.injEq] at h
        subst h
        constructor
        · intro hc
          rcases List.mem_cons.mp hc with rfl | hc2
          · exact ⟨x, by simp, hl⟩
          · obtain ⟨y, hy, hyl⟩ := (ih cs0 hxs c).mp hc2
            exact ⟨y, by simp [hy], hyl⟩
        · rintro ⟨y, hy, hyl⟩
          rcases List.mem_cons.mp hy with rfl | hy2
          · rw [hl] at hyl
            rw [List.mem_cons]
            injection hyl with h2
            exact Or.inl h2.symm
          · exact List.mem_cons.mpr (Or.inr ((ih cs0 hxs c).mpr ⟨y, hy2, hyl⟩))

lemma find?_range'_min {q : Nat → Bool} :
    ∀ (n s i : Nat), (List.range' s n).find? q = some i →
      q i = true ∧ i < s + n ∧ ∀ j, s ≤ j → j < i → q j = false := by
  intro n
  induction n with
  | zero => intro s i h; simp [List.range'] at h
  | succ n ih =>
    intro s i h
    simp only [List.range'] at h
    by_cases hqs : q s = true
    · rw [List.find?_cons_of_pos _ hqs] at h
      injection h with h
      subst h
      exact ⟨hqs, by omega, fun j h1 h2 => by omega⟩
    · rw [List.find?_cons_of_neg _ (by simpa using hqs)] at h
      obtain ⟨hq, hb, hmin⟩ := ih (s + 1) i h
      refine ⟨hq, by omega, ?_⟩
      intro j h1 h2
      rcases Nat.eq_or_lt_of_le h1 with rfl | hlt
      · simpa using hqs
      · exact hmin j hlt h2

lemma az_isAlpha : ∀ i, i < 26 → (Char.ofNat (97 + i)).isAlpha = true := by decide

/-- C3: for every parent p and list of existing children (each non-empty,
as produced by allocation), the subtopic id built from
get_next_subtopic_letter is p followed by the first letter of a..z that is
not the final character of any existing child; when all twenty-six letters
are taken, the id is p followed by the fixed fallback aa.  Concretely,
children 3a and 3b of parent 3 yield 3c, and children 3a through 3z yield
3aa. -/
theorem c3_subtopic_letter_allocation :
    (∀ (p : String) (existing : List String), (∀ x ∈ existing, x ≠ "") →
      ∃ r, (get_next_subtopic_letter existing).map (fun letter => p ++ letter) = .ok r ∧
        ((∃ i, i < 26 ∧ r = p ++ (⟨[Char.ofNat (97 + i)]⟩ : String) ∧
            (∀ x ∈ existing, x.data.getLast? ≠ some (Char.ofNat (97 + i))) ∧
            (∀ i2, i2 < i → ∃ x ∈ existing,
              x.data.getLast? = some (Char.ofNat (97 + i2))))
          ∨ ((∀ i, i < 26 → ∃ x ∈ existing,
              x.data.getLast? = some (Char.ofNat (97 + i))) ∧ r = p ++ "aa")))
    ∧ (get_next_subtopic_letter ["3a", "3b"]).map (fun letter => "3" ++ letter) =
        .ok "3c"
    ∧ (get_next_subtopic_letter childrenAZ).map (fun letter => "3" ++ letter) =
        .ok "3aa" := by
  refine ⟨?_, by decide, by decide⟩
  intro p existing hne
  unfold get_next_subtopic_letter
  by_cases hemp : existing.isEmpty
  · rw [if_pos hemp]
    refine ⟨p ++ "a", rfl, Or.inl ⟨0, by omega, rfl, ?_, by omega⟩⟩
    intro x hx
    rw [List.isEmpty_iff.mp hemp] at hx
    simp at hx
  · rw [if_neg hemp]
    obtain ⟨lasts, hlasts⟩ := lastChars_total existing hne
    rw [hlasts]
    have hmem := lastChars_mem existing lasts hlasts
    by_cases hlet : (lasts.filter Char.isAlpha).isEmpty
    · simp only [hlet, if_true]
      refine ⟨p ++ "a", rfl, Or.inl ⟨0, by omega, rfl, ?_, by omega⟩⟩
      intro x hx hcontra
      have h1 : Char.ofNat 97 ∈ lasts := (hmem _).mpr ⟨x, hx, by simpa using hcontra⟩
      have h2 : Char.ofNat 97 ∈ lasts.filter Char.isAlpha :=
        List.mem_filter.mpr ⟨h1, az_isAlpha 0 (by omega)⟩
      rw [List.isEmpty_iff.mp hlet] at h2
      simp at h2
    · simp only [hlet, if_false]
      rcases hfind : (List.range 26).find? (fun i =>
          !(lasts.filter Char.isAlpha).contains (Char.ofNat (97 + i))) with _ | i
      · refine ⟨p ++ "aa", rfl, Or.inr ⟨?_, rfl⟩⟩
        intro i hi
        have hall := List.find?_eq_none.mp hfind i (List.mem_range.mpr hi)
        have hcont : (lasts.filter Char.isAlpha).contains (Char.ofNat (97 + i)) = true := by
          simpa using hall
        have h1 : Char.ofNat (97 + i) ∈ lasts.filter Char.isAlpha := by
          simpa [List.contains, List.elem_iff] using hcont
        have h2 : Char.ofNat (97 + i) ∈ lasts := (List.mem_filter.mp h1).1
        exact (hmem _).mp h2
      · have hfind' := hfind
        rw [List.range_eq_range'] at hfind'
        obtain ⟨hq, hb, hmin⟩ := find?_range'_min 26 0 i hfind'
        refine ⟨p ++ (⟨[Char.ofNat (97 + i)]⟩ : String), rfl,
          Or.inl ⟨i, by omega, rfl, ?_, ?_⟩⟩
        · intro x hx hcontra
          have h1 : Char.ofNat (97 + i) ∈ lasts := (hmem _).mpr ⟨x, hx, hcontra⟩
          have h2 : Char.ofNat (97 + i) ∈ lasts.filter Char.isAlpha :=
            List.mem_filter.mpr ⟨h1, az_isAlpha i (by omega)⟩
          have h3 : (lasts.filter Char.isAlpha).contains (Char.ofNat (97 + i)) = true := by
            simp only [List.contains, List.elem_iff]
            exact h2
          rw [h3] at hq
          simp at hq
        · intro i2 hi2
          have hq2 := hmin i2 (by omega) hi2
          have hcont : (lasts.filter Char.isAlpha).contains (Char.ofNat (97 + i2)) = true := by
            simpa using hq2
          have h1 : Char.ofNat (97 + i2) ∈ lasts.filter Char.isAlpha := by
            simpa [List.contains, List.elem_iff] using hcont
          exact (hmem _).mp (List.mem_filter.mp h1).1

/-- C3 witness: the general characterization applied to parent 3 with
children 3a and 3b. -/
theorem c3_subtopic_letter_allocation_witness :
    ∃ r, (get_next_subtopic_letter ["3a", "3b"]).map (fun letter => "3" ++ letter) = .ok r ∧
      ((∃ i, i < 26 ∧ r = "3" ++ (⟨[Char.ofNat (97 + i)]⟩ : String) ∧
          (∀ x ∈ ["3a", "3b"], x.data.getLast? ≠ some (Char.ofNat (97 + i))) ∧
          (∀ i2, i2 < i → ∃ x ∈ ["3a", "3b"],
            x.data.getLast? = some (Char.ofNat (97 + i2))))
        ∨ ((∀ i, i < 26 → ∃ x ∈ ["3a", "3b"],
            x.data.getLast? = some (Char.ofNat (97 + i))) ∧ r = "3" ++ "aa")) :=
  c3_subtopic_letter_allocation.1 "3" ["3a", "3b"] (by decide)

/-! ## Counter monotonicity of generate_zettel_number (C1) -/

lemma getCounter_trackMembership (c num : String) (s : NumberingScheme) (f : String) :
    (trackMembership c num s).getCounter f = s.getCounter f := by
  unfold trackMembership
  split_ifs <;> simp [NumberingScheme.getCounter]

lemma getCounter_setCounter (s : NumberingScheme) (f0 : String) (n m : Nat)
    (h : s.getCounter f0 = some n) (f : String) :
    (s.setCounter f0 m).getCounter f = if f = f0 then some m else s.getCounter f := by
  unfold NumberingScheme.getCounter at h ⊢
  unfold NumberingScheme.setCounter
  split_ifs at h <;> simp_all <;> split_ifs <;> simp_all

lemma generate_incpath {rules : Rules} {cat : String} {s : NumberingScheme}
    {num : String} {s1 : NumberingScheme} {f : String}
    (hf : incFieldOf rules cat = some f)
    (hok : generate_zettel_number rules cat s = .ok (num, s1)) :
    ∃ n, s.getCounter f = some n ∧ s1.getCounter f = some (n + 1) ∧
      num = pfxOf rules cat ++ Nat.repr (n + 1) := by
  rcases hr : Dict.find? rules cat with _ | rule
  · simp only [incFieldOf, hr] at hf
    exact absurd hf (by simp)
  · simp only [incFieldOf, hr] at hf
    simp only [generate_zettel_number, hr, hf] at hok
    rcases hg : s.getCounter f with _ | n
    · rw [hg] at hok
      simp at hok
    · rw [hg] at hok
      simp only [Except.ok.injEq, Prod.mk.injEq] at hok
      obtain ⟨hnum, hs1⟩ := hok
      refine ⟨n, rfl, ?_, ?_⟩
      · rw [← hs1, getCounter_trackMembership,
          getCounter_setCounter s f n (n + 1) hg f]
        simp
      · rw [← hnum]
        simp [pfxOf, hr]

lemma cval_mono_generate {rules : Rules} {cat : String} {s : NumberingScheme}
    {num : String} {s1 : NumberingScheme}
    (hok : generate_zettel_number rules cat s = .ok (num, s1)) (f : String) :
    cval s f ≤ cval s1 f := by
  rcases hr : Dict.find? rules cat with _ | rule
  · simp only [generate_zettel_number, hr] at hok
    split at hok
    · split at hok
      · simp at hok
      · simp only [Except.ok.injEq, Prod.mk.injEq] at hok
        rw [← hok.2]
        unfold cval NumberingScheme.getCounter
        split_ifs <;> simp
    · split at hok
      · simp only [Except.ok.injEq, Prod.mk.injEq] at hok
        rw [← hok.2]
        unfold cval NumberingScheme.getCounter
        split_ifs <;> simp
      · split at hok
        · simp only [Except.ok.injEq, Prod.mk.injEq] at hok
          rw [← hok.2]
          unfold cval NumberingScheme.getCounter
          split_ifs <;> simp
        · split at hok
          · simp only [Except.ok.injEq, Prod.mk.injEq] at hok
            rw [← hok.2]
            unfold cval NumberingScheme.getCounter
            split_ifs <;> simp
          · split at hok
            · simp at hok
            · simp only [Except.ok.injEq, Prod.mk.injEq] at hok
              rw [← hok.2]
              unfold cval NumberingScheme.getCounter
              split_ifs <;> simp
  · simp only [generate_zettel_number, hr] at hok
    split at hok
    · rename_i f0 heq
      split at hok
      · simp at hok
      · rename_i n hg
        simp only [Except.ok.injEq, Prod.mk.injEq] at hok
        rw [← hok.2]
        unfold cval
        rw [getCounter_trackMembership, getCounter_setCounter s f0 n (n + 1) hg f]
        by_cases hff : f = f0
        · rw [if_pos hff, hff, hg]
          simp
        · rw [if_neg hff]
    · simp only [Except.ok.injEq, Prod.mk.injEq] at hok
      rw [← hok.2]

lemma str_append_left_cancel {p a b : String} (h : p ++ a = p ++ b) : a = b := by
  have h2 : p.data ++ a.data = p.data ++ b.data := by
    have := congrArg String.data h
    simpa using this
  have h3 : a.data = b.data := List.append_cancel_left h2
  cases a with
  | mk da =>
    cases b with
    | mk db =>
      have h4 : da = db := by simpa using h3
      rw [h4]

lemma allocStep_memdisk {rules : Rules} {st : AllocSession} (ev : AllocEv)
    (h : st.mem = st.disk) :
    (allocStep rules st ev).1.mem = (allocStep rules st ev).1.disk := by
  cases ev with
  | reload => simp [allocStep]
  | alloc c =>
    simp only [allocStep]
    rcases hg : generate_zettel_number rules c st.mem with e | p
    · exact h
    · simp

lemma allocStep_mono {rules : Rules} {st : AllocSession} (ev : AllocEv)
    (h : st.mem = st.disk) (f : String) :
    cval st.mem f ≤ cval (allocStep rules st ev).1.mem f := by
  cases ev with
  | reload => simp [allocStep, ← h]
  | alloc c =>
    simp only [allocStep]
    rcases hg : generate_zettel_number rules c st.mem with e | p
    · exact le_refl _
    · rcases p with ⟨number, s1⟩
      exact cval_mono_generate hg f

lemma allocStep_out {rules : Rules} {st : AllocSession} {ev : AllocEv}
    {cat id : String} {v : Nat}
    (hout : (allocStep rules st ev).2 = some (cat, id, v)) :
    ∃ f, incFieldOf rules cat = some f ∧
      cval st.mem f < v ∧ v = cval (allocStep rules st ev).1.mem f ∧
      id = pfxOf rules cat ++ Nat.repr v := by
  cases ev with
  | reload => simp [allocStep] at hout
  | alloc c =>
    simp only [allocStep] at hout ⊢
    rcases hg : generate_zettel_number rules c st.mem with e | p
    · rw [hg] at hout; simp at hout
    · rcases p with ⟨number, s1⟩
      rw [hg] at hout
      rcases hf : incFieldOf rules c with _ | f
      · rw [hf] at hout; simp at hout
      · rw [hf] at hout
        simp only [Option.some.injEq, Prod.mk.injEq] at hout
        obtain ⟨hcat, hid, hv⟩ := hout
        subst hcat
        obtain ⟨n, hn, hn1, hnum⟩ := generate_incpath hf hg
        have hcv : cval st.mem f = n := by simp [cval, hn]
        have hcv1 : cval s1 f = n + 1 := by simp [cval, hn1]
        refine ⟨f, hf, ?_, ?_, ?_⟩
        · rw [← hv, hcv, hcv1]; omega
        · rw [← hv]
        · rw [← hid, ← hv, hnum, hcv1]

lemma runAllocs_trace {rules : Rules} :
    ∀ (evs : List AllocEv) (st : AllocSession), st.mem = st.disk → ∀ (c : String),
      (∀ t ∈ allocTrace rules evs st c, ∃ f, incFieldOf rules c = some f ∧
          cval st.mem f < t.2.2) ∧
      (∀ t ∈ allocTrace rules evs st c,
          t.2.1 = pfxOf rules c ++ Nat.repr t.2.2) ∧
      List.Pairwise (fun a b => a.2.2 < b.2.2) (allocTrace rules evs st c) := by
  intro evs
  induction evs with
  | nil =>
    intro st h c
    simp [allocTrace, runAllocs]
  | cons ev rest ih =>
    intro st h c
    have hmd := @allocStep_memdisk rules st ev h
    obtain ⟨ihb, ihf, ihp⟩ := ih (allocStep rules st ev).1 hmd c
    have htr : allocTrace rules (ev :: rest) st c =
        ((match (allocStep rules st ev).2 with
          | none => ([] : List (String × String × Nat))
          | some o => [o]).filter (fun t => t.1 = c))
          ++ allocTrace rules rest (allocStep rules st ev).1 c := by
      simp [allocTrace, runAllocs, List.filter_append]
    rcases hout : (allocStep rules st ev).2 with _ | o
    · rw [hout] at htr
      have htr2 : allocTrace rules (ev :: rest) st c =
          allocTrace rules rest (allocStep rules st ev).1 c := by
        rw [htr]; simp
      rw [htr2]
      refine ⟨?_, ihf, ihp⟩
      intro t ht
      obtain ⟨f, hf, hlt⟩ := ihb t ht
      exact ⟨f, hf, lt_of_le_of_lt (allocStep_mono ev h f) hlt⟩
    · rcases o with ⟨c0, id, v⟩
      rw [hout] at htr
      by_cases hc0 : c0 = c
      · subst hc0
        obtain ⟨f, hf, hlt, hveq, hidform⟩ := allocStep_out hout
        have htr2 : allocTrace rules (ev :: rest) st c0 =
            (c0, id, v) :: allocTrace rules rest (allocStep rules st ev).1 c0 := by
          rw [htr]; simp
        rw [htr2]
        refine ⟨?_, ?_, ?_⟩
        · intro t ht
          rcases List.mem_cons.mp ht with rfl | ht2
          · exact ⟨f, hf, hlt⟩
          · obtain ⟨f2, hf2, hlt2⟩ := ihb t ht2
            exact ⟨f2, hf2, lt_of_le_of_lt (allocStep_mono ev h f2) hlt2⟩
        · intro t ht
          rcases List.mem_cons.mp ht with rfl | ht2
          · exact hidform
          · exact ihf t ht2
        · rw [List.pairwise_cons]
          refine ⟨?_, ihp⟩
          intro t ht
          obtain ⟨f2, hf2, hlt2⟩ := ihb t ht
          have hff : f2 = f := by
            rw [hf] at hf2
            injection hf2 with h2
            exact h2.symm
          rw [hff] at hlt2
          rw [hveq]
          exact hlt2
      · have htr2 : allocTrace rules (ev :: rest) st c =
            allocTrace rules rest (allocStep rules st ev).1 c := by
          rw [htr]; simp [hc0]
        rw [htr2]
        refine ⟨?_, ihf, ihp⟩
        intro t ht
        obtain ⟨f2, hf2, hlt2⟩ := ihb t ht
        exact ⟨f2, hf2, lt_of_le_of_lt (allocStep_mono ev h f2) hlt2⟩

/-- C1: in any session of allocations and reloads over persisted numbering
state that starts with the in-memory scheme equal to the persisted one, the
configured-increment allocations reported for any one bucket category carry
strictly increasing counter values, and no two of them return the same id:
every allocation is strictly greater, by counter value, than every earlier
allocation of that bucket, and ids are never reused, including across
reloads of the persisted scheme. -/
theorem c1_allocation_monotonic :
    ∀ (rules : Rules) (evs : List AllocEv) (st : AllocSession),
      st.mem = st.disk → ∀ (category : String),
        List.Pairwise (fun a b => a.2.2 < b.2.2 ∧ a.2.1 ≠ b.2.1)
          (allocTrace rules evs st category) := by
  intro rules evs st h c
  obtain ⟨hb, hform, hp⟩ := runAllocs_trace evs st h c
  refine hp.imp_of_mem ?_
  intro a b ha hb2 hlt
  refine ⟨hlt, ?_⟩
  intro heq
  have h1 := hform a ha
  have h2 := hform b hb2
  rw [h1, h2] at heq
  have h3 := str_append_left_cancel heq
  have h4 := natRepr_inj h3
  omega

/-- C1 witness: a concrete session over a rule table with an increment rule
for the main bucket, with a reload between two allocations. -/
theorem c1_allocation_monotonic_witness :
    List.Pairwise (fun a b => a.2.2 < b.2.2 ∧ a.2.1 ≠ b.2.1)
      (allocTrace [("main", ⟨"", some "last_main_topic"⟩)]
        [.alloc "main", .reload, .alloc "main"]
        ⟨.bootstrap, .bootstrap⟩ "main") :=
  c1_allocation_monotonic [("main", ⟨"", some "last_main_topic"⟩)]
    [.alloc "main", .reload, .alloc "main"] ⟨.bootstrap, .bootstrap⟩ rfl "main"

/-! ## Totality of allocation and formatting under wellformed state -/

lemma Dict.find?_mem {α : Type} : ∀ {d : Dict α} {k : String} {v : α},
    Dict.find? d k = some v → (k, v) ∈ d := by
  intro d
  induction d with
  | nil => intro k v h; simp [Dict.find?] at h
  | cons p rest ih =>
    intro k v h
    rcases p with ⟨k0, v0⟩
    by_cases hk : k0 = k
    · subst hk
      simp [Dict.find?] at h
      rw [← h]
      simp
    · simp only [Dict.find?, if_neg hk] at h
      exact List.mem_cons.mpr (Or.inr (ih h))

lemma JField.getD?_of_notNull {α : Type} {f : JField α} (d : α)
    (h : f.notNull = true) : ∃ v, f.getD? d = some v := by
  cases f with
  | absent => exact ⟨d, rfl⟩
  | null => simp [JField.notNull] at h
  | val a => exact ⟨a, rfl⟩

lemma get_next_total (existing : List String) (h : ∀ x ∈ existing, x ≠ "") :
    ∃ r, get_next_subtopic_letter existing = .ok r := by
  unfold get_next_subtopic_letter
  by_cases he : existing.isEmpty
  · rw [if_pos he]; exact ⟨_, rfl⟩
  · rw [if_neg he]
    obtain ⟨cs, hcs⟩ := lastChars_total existing h
    rw [hcs]
    by_cases hl : (cs.filter Char.isAlpha).isEmpty
    · simp only [hl, if_true]
      exact ⟨_, rfl⟩
    · simp only [hl, if_false]
      rcases hfind : (List.range 26).find? (fun i =>
          !(cs.filter Char.isAlpha).contains (Char.ofNat (97 + i))) with _ | i
      · exact ⟨_, rfl⟩
      · exact ⟨_, rfl⟩

lemma wfScheme_subtopics {s : NumberingScheme} (hs : wfScheme s = true)
    {p : String} {l : List String} (hf : Dict.find? s.subtopics p = some l) :
    ∀ x ∈ l, x ≠ "" := by
  intro x hx
  have hmem := Dict.find?_mem hf
  have h1 := (List.all_eq_true.mp hs) (p, l) hmem
  have h2 := (List.all_eq_true.mp h1) x hx
  simpa using h2

lemma generate_total {rules : Rules} {cat : String} {s : NumberingScheme}
    (hr : wfRules rules = true) (hs : wfScheme s = true) :
    ∃ out, generate_zettel_number rules cat s = .ok out := by
  rcases hf : Dict.find? rules cat with _ | rule
  · simp only [generate_zettel_number, hf]
    have hcond : (decide (cat = "subtopic") && Dict.contains rules "subtopic") = false := by
      by_cases hc : cat = "subtopic"
      · subst hc
        simp [Dict.contains, hf]
      · simp [hc]
    rw [if_neg (by rw [hcond]; simp)]
    by_cases hfr : cat = "frequent"
    · rw [if_pos hfr]; exact ⟨_, rfl⟩
    · rw [if_neg hfr]
      by_cases hq : cat = "quote"
      · rw [if_pos hq]; exact ⟨_, rfl⟩
      · rw [if_neg hq]
        by_cases hm : cat = "main"
        · rw [if_pos hm]; exact ⟨_, rfl⟩
        · rw [if_neg hm]
          rcases hsub : Dict.find? s.subtopics (splitSlashHead cat) with _ | l
          · obtain ⟨r, hnext⟩ := get_next_total [] (by simp)
            rw [show (Option.getD (α := List String) none []) = [] from rfl, hnext]
            exact ⟨_, rfl⟩
          · obtain ⟨r, hnext⟩ := get_next_total l (wfScheme_subtopics hs hsub)
            rw [show (some l).getD [] = l from rfl, hnext]
            exact ⟨_, rfl⟩
  · have hmem := Dict.find?_mem hf
    have hall := (List.all_eq_true.mp hr) (cat, rule) hmem
    rcases ht : truthyField rule.increment_field with _ | f0
    · simp only [generate_zettel_number, hf, ht]
      exact ⟨_, rfl⟩
    · rw [ht] at hall
      have hgc : ∃ n, s.getCounter f0 = some n := by
        simp only [Bool.or_eq_true, decide_eq_true_eq] at hall
        rcases hall with (h1 | h1) | h1 <;> subst h1 <;>
          simp [NumberingScheme.getCounter]
      obtain ⟨n, hn⟩ := hgc
      simp only [generate_zettel_number, hf, ht, hn]
      exact ⟨_, rfl⟩

lemma fzc_scan_total {num : String} {tt tw : List String} :
    ∀ (entries : List (String × CardMeta)), (∀ p ∈ entries, wfEntry p.2 = true) →
      ∃ l, fzc_scan num tt tw entries = .ok l := by
  intro entries
  induction entries with
  | nil => intro _; exact ⟨[], rfl⟩
  | cons p rest ih =>
    intro h
    obtain ⟨l, hl⟩ := ih (fun q hq => h q (List.mem_cons.mpr (Or.inr hq)))
    rcases p with ⟨pnum, info⟩
    have hw : wfEntry info = true := h (pnum, info) (by simp)
    simp only [wfEntry, Bool.and_eq_true] at hw
    obtain ⟨⟨htag, httl⟩, hcat⟩ := hw
    obtain ⟨tv, htv⟩ := JField.getD?_of_notNull ([] : List String) htag
    obtain ⟨ttlv, httlv⟩ := JField.getD?_of_notNull "" httl
    obtain ⟨catv, hcatv⟩ := JField.getD?_of_notNull "" hcat
    simp only [fzc_scan, htv, httlv, hcatv, hl]
    split
    · exact ⟨_, rfl⟩
    · split
      · exact ⟨_, rfl⟩
      · exact ⟨_, rfl⟩

lemma format_total {card_index : CardIndex} (hw : wfIndex card_index = true)
    (card_data : CardData) :
    ∃ out, format_card_content card_data card_index = .ok out := by
  obtain ⟨l, hl⟩ := @fzc_scan_total card_data.number card_data.tags
    (pySplitWs (strLower card_data.title))
    card_index (fun p hp => (List.all_eq_true.mp hw) p hp)
  simp only [format_card_content, find_zettel_connections, hl]
  exact ⟨_, rfl⟩

/-- C4 counterexample: when the target-folder creation fails, the exception
escapes create_zettel_card instead of being returned as an error object,
because that mkdir runs before the try block; the claim that no exception
propagates under any I/O failure is therefore false. -/
theorem c4_mkdir_failure_escapes :
    create_zettel_card [] ⟨false, true, true, true⟩ "t1" Store.fresh
      "c" "T" "main" none none none = .error "OSError" := by decide

/-- C4 amended: create_zettel_card returns the card record or an explicit
error-result object, and no exception escapes, provided the steps the
source runs before its try block succeed: the configured increment fields
name real counters, the numbering scheme and the card index are wellformed,
and the target-folder mkdir does not fail.  I/O failures confined to the
writing phase (card file, extra folder) yield the error object. -/
theorem c4_create_card_error_contract :
    ∀ (rules : Rules) (flags : IOFlags) (now : String) (st : Store)
      (content title category : String)
      (xr tg : Option (List String)) (efp : Option String),
      flags.mkdir_ok = true → wfRules rules = true →
      wfScheme st.numbering_scheme = true → wfIndex st.card_index = true →
      ∃ o, create_zettel_card rules flags now st content title category
        xr tg efp = .ok o := by
  intro rules flags now st content title category xr tg efp hmk hr hs hw
  obtain ⟨⟨num, s1⟩, hgen⟩ := @generate_total rules category st.numbering_scheme hr hs
  obtain ⟨cs, hfmt⟩ := format_total hw
    ⟨num, title, content, category, xr.getD [], tg.getD [], now, now⟩
  simp only [create_zettel_card, hgen, hmk, Bool.not_true, hfmt]
  by_cases h1 : flags.write_card_ok <;> by_cases h2 : efp.isSome <;>
    by_cases h3 : flags.extra_mkdir_ok <;> by_cases h4 : flags.write_extra_ok <;>
      simp [h1, h2, h3, h4]

/-- C4 witness: the amended contract applied to a concrete call whose card
write fails, which returns the error-result object inside a normal
return. -/
theorem c4_create_card_error_contract_witness :
    ∃ o, create_zettel_card [] ⟨true, false, true, true⟩ "t1" Store.fresh
      "c" "T" "main" none none none = .ok o :=
  c4_create_card_error_contract [] ⟨true, false, true, true⟩ "t1" Store.fresh
    "c" "T" "main" none none none rfl (by decide) (by decide) (by decide)

/-- C5 counterexample: with the empty rule table left by a missing or
malformed rules resource, the unrecognized category xyz does not yield the
sentinel unknown; the fallback treats it as a subtopic parent and returns
xyza. -/
theorem c5_unknown_sentinel_counterexample :
    (generate_zettel_number [] "xyz" NumberingScheme.bootstrap).map Prod.fst =
      .ok "xyza"
    ∧ ("xyza" : String) ≠ "unknown" := by
  constructor
  · decide
  · decide

/-- C5 amended: the sentinel unknown is returned exactly for a category
whose configured rule lacks a truthy increment field; a category with no
rule at all falls back to the built-in logic (main counts up from 1,
frequent gets prefix A, quote gets prefix Z, and anything else is treated
as a subtopic parent), which is also what every category gets when the
rules resource is missing; and allocation never raises as long as the
configured increment fields name real counters and no recorded subtopic id
is empty. -/
theorem c5_allocation_fallback :
    (∀ (rules : Rules) (category : String) (rule : NumberingRule)
        (s : NumberingScheme),
      Dict.find? rules category = some rule →
      truthyField rule.increment_field = none →
      generate_zettel_number rules category s = .ok ("unknown", s))
    ∧ ((generate_zettel_number [] "main" NumberingScheme.bootstrap).map Prod.fst =
        .ok "1"
      ∧ (generate_zettel_number [] "frequent" NumberingScheme.bootstrap).map Prod.fst =
        .ok "A1"
      ∧ (generate_zettel_number [] "quote" NumberingScheme.bootstrap).map Prod.fst =
        .ok "Z1"
      ∧ (generate_zettel_number [] "xyz" NumberingScheme.bootstrap).map Prod.fst =
        .ok "xyza")
    ∧ (∀ (rules : Rules) (category : String) (s : NumberingScheme),
        wfRules rules = true → wfScheme s = true →
        ∃ out, generate_zettel_number rules category s = .ok out) := by
  refine ⟨?_, by decide, ?_⟩
  · intro rules category rule s hf ht
    simp only [generate_zettel_number, hf, ht]
  · intro rules category s hr hs
    exact generate_total hr hs

/-- C5 witness: a rule without an increment field yields unknown, and a
fallback allocation on the bootstrapped scheme succeeds. -/
theorem c5_allocation_fallback_witness :
    generate_zettel_number [("noinc", ⟨"N", none⟩)] "noinc"
      NumberingScheme.bootstrap = .ok ("unknown", NumberingScheme.bootstrap)
    ∧ ∃ out, generate_zettel_number [] "quote" NumberingScheme.bootstrap =
        .ok out :=
  ⟨c5_allocation_fallback.1 [("noinc", ⟨"N", none⟩)] "noinc" ⟨"N", none⟩
      NumberingScheme.bootstrap (by decide) (by decide),
    c5_allocation_fallback.2.2 [] "quote" NumberingScheme.bootstrap
      (by decide) (by decide)⟩

/-- C9: on a fresh store with bootstrapped numbering state (and the empty
rule table of a missing rules resource), the end-to-end sequence of
create_zettel_card calls with categories main, main, and the subtopic
parent 1 yields the ids 1, 2 and 1a. -/
theorem c9_end_to_end_ids : c9run = some ["1", "2", "1a"] := by decide

/-- C10: an id absent from the construction-time card-index snapshot makes
update_card return normally with the search-index table untouched, whatever
the file system and the current table contents. -/
theorem c10_update_card_frame :
    ∀ (fs : FileSys) (ix : Indexer) (zettel_number : String),
      Dict.find? ix.card_index zettel_number = none →
      update_card fs ix zettel_number = .ok ix := by
  intro fs ix z h
  simp only [update_card, h]

/-- C10 witness: the frame property applied to the indexer whose snapshot
predates card 2. -/
theorem c10_update_card_frame_witness :
    update_card [] ⟨snapOld, [("1", riversRow)]⟩ "2" =
      .ok ⟨snapOld, [("1", riversRow)]⟩ :=
  c10_update_card_frame [] ⟨snapOld, [("1", riversRow)]⟩ "2" (by decide)

/-- C6 counterexample: after a full rebuild, a title-substring search finds
the indexed card, and a card created in the card store afterwards is absent
from search results; but calling update_card with the new id on the same
indexer instance, whose construction-time snapshot predates the card, is a
no-op, and the card stays unsearchable, contradicting the claim that the
search then succeeds. -/
theorem c6_stale_update_counterexample :
    index_all [] ⟨snapOld, []⟩ = .ok ⟨snapOld, [("1", riversRow)]⟩
    ∧ (search [("1", riversRow)] "River").map Prod.fst = ["1"]
    ∧ (search [("1", riversRow)] "Mountain").map Prod.fst = []
    ∧ update_card [] ⟨snapOld, [("1", riversRow)]⟩ "2" =
        .ok ⟨snapOld, [("1", riversRow)]⟩
    ∧ (search [("1", riversRow)] "Mountain").map Prod.fst = [] := by decide

/-- C6 amended: after index_all, searching a substring of an indexed title
returns that card; a card created in the card store afterwards is absent
from search results until update_card runs for it on an indexer whose
construction-time snapshot contains the card (such as a freshly constructed
indexer over the same database), after which the search succeeds. -/
theorem c6_index_then_refresh :
    index_all [] ⟨snapOld, []⟩ = .ok ⟨snapOld, [("1", riversRow)]⟩
    ∧ (search [("1", riversRow)] "River").map Prod.fst = ["1"]
    ∧ (search [("1", riversRow)] "Mountain").map Prod.fst = []
    ∧ update_card [] ⟨snapNew, [("1", riversRow)]⟩ "2" =
        .ok ⟨snapNew, [("1", riversRow), ("2", mountainsRow)]⟩
    ∧ (search [("1", riversRow), ("2", mountainsRow)] "Mountain").map Prod.fst =
        ["2"] := by decide

/-- C7 counterexample: an id mapped to the empty JSON object is present in
the card index, yet get_card returns no record at all (the Python falsiness
guard), so the claim that every present id yields a record with non-null
collections is false as stated. -/
theorem c7_empty_entry_counterexample :
    Dict.find? [("x", emptyMeta)] "x" = some emptyMeta
    ∧ get_card [("x", emptyMeta)] "x" = none := by decide

lemma coerceLists_val_fields (info : CardMeta) :
    (∃ l, info.coerceLists.tags = JField.val l) ∧
    (∃ l, info.coerceLists.cross_references = JField.val l) := by
  constructor
  · cases h : info.tags.get? with
    | none => exact ⟨[], by simp [CardMeta.coerceLists, h]⟩
    | some l => exact ⟨l, by simp [CardMeta.coerceLists, h]⟩
  · cases h : info.cross_references.get? with
    | none => exact ⟨[], by simp [CardMeta.coerceLists, h]⟩
    | some l => exact ⟨l, by simp [CardMeta.coerceLists, h]⟩

lemma get_card_insert (ci : CardIndex) (num : String) (m : CardMeta)
    (hne : m.isEmptyObj = false) :
    get_card (Dict.insert ci num m) num = some m.coerceLists := by
  simp [get_card, Dict.find?_insert_self, hne]

/-- C7 amended: for every id that the card index maps to a non-empty entry,
get_card returns a record whose tags and cross-references fields hold real
(possibly empty) lists, with an absent or null field coerced to the empty
list; an id mapped to the empty object yields no record (Python falsiness).
In particular, get_card of a card just created by create_zettel_card always
returns non-null tag and cross-reference collections. -/
theorem c7_get_card_normalizes :
    (∀ (card_index : CardIndex) (zettel_number : String) (info : CardMeta),
      Dict.find? card_index zettel_number = some info →
      info.isEmptyObj = false →
      ∃ r, get_card card_index zettel_number = some r ∧
        (∃ l, r.tags = JField.val l) ∧ (∃ l, r.cross_references = JField.val l))
    ∧ (∀ (rules : Rules) (flags : IOFlags) (now : String) (st : Store)
        (content title category : String) (xr tg : Option (List String))
        (efp : Option String) (c : CardData) (st2 : Store),
        create_zettel_card rules flags now st content title category xr tg efp =
          .ok (.card c st2) →
        ∃ r, get_card st2.card_index c.number = some r ∧
          (∃ l, r.tags = JField.val l) ∧
          (∃ l, r.cross_references = JField.val l)) := by
  constructor
  · intro ci z info hf he
    refine ⟨info.coerceLists, ?_, (coerceLists_val_fields info).1,
      (coerceLists_val_fields info).2⟩
    simp [get_card, hf, he]
  · intro rules flags now st content title category xr tg efp c st2 hc
    rcases hg : generate_zettel_number rules category st.numbering_scheme
      with e | p
    · simp [create_zettel_card, hg] at hc
    · rcases p with ⟨num, s1⟩
      simp only [create_zettel_card, hg] at hc
      by_cases hmk : flags.mkdir_ok
      · rw [if_neg (by simp [hmk])] at hc
        rcases hfmt : format_card_content
            ⟨num, title, content, category, xr.getD [], tg.getD [], now, now⟩
            st.card_index with e | cs
        · rw [hfmt] at hc
          simp at hc
        · rw [hfmt] at hc
          by_cases h1 : flags.write_card_ok
          · rw [if_neg (by simp [h1])] at hc
            by_cases h2 : (efp.isSome && !flags.extra_mkdir_ok) = true
            · rw [if_pos h2] at hc
              simp at hc
            · rw [if_neg h2] at hc
              by_cases h3 : (efp.isSome && !flags.write_extra_ok) = true
              · rw [if_pos h3] at hc
                simp at hc
              · rw [if_neg h3] at hc
                simp only [Except.ok.injEq, CreateOutcome.card.injEq] at hc
                obtain ⟨hcd, hst⟩ := hc
                subst hcd
                subst hst
                exact ⟨_, get_card_insert _ _ _ (by simp [CardMeta.isEmptyObj]),
                  (coerceLists_val_fields _).1, (coerceLists_val_fields _).2⟩
          · rw [if_pos (by simp [h1])] at hc
            simp at hc
      · rw [if_pos (by simp [hmk])] at hc
        simp at hc

/-- C7 witness: the normalization applied to a singleton index whose entry
omits both collections. -/
theorem c7_get_card_normalizes_witness :
    ∃ r, get_card [("1", riversMeta)] "1" = some r ∧
      (∃ l, r.tags = JField.val l) ∧ (∃ l, r.cross_references = JField.val l) :=
  c7_get_card_normalizes.1 [("1", riversMeta)] "1" riversMeta
    (by decide) (by decide)

/-- C8 counterexample: with an explicitly empty candidate list the claim
demands an empty result, but Python falsiness makes the empty list behave
like the omitted default, so the whole card index is scanned and a
non-candidate is returned. -/
theorem c8_empty_candidates_counterexample :
    find_thematic_connections alphaBetaIndex "alpha beta gamma" (some []) =
      .ok ["1"]
    ∧ ("1" : String) ∉ ([] : List String) := by
  constructor
  · decide
  · simp

lemma ftc_scan_filter {card_index : CardIndex} {cw : List String}
    (hw : ∀ p ∈ card_index, p.2.title.notNull = true) :
    ∀ cards : List String, ftc_scan card_index cw cards =
      .ok (cards.filter (fun card_number =>
        match Dict.find? card_index card_number with
        | none => false
        | some info =>
          decide ((sharedWords cw
            (pyWords (strLower ((info.title.getD? "").getD "")))).length ≥ 2))) := by
  intro cards
  induction cards with
  | nil => rfl
  | cons cn rest ih =>
    simp only [ftc_scan, List.filter_cons]
    rcases hf : Dict.find? card_index cn with _ | info
    · simp [ih]
    · obtain ⟨t, ht⟩ :=
        JField.getD?_of_notNull "" (hw (cn, info) (Dict.find?_mem hf))
      simp [ht, ih]

/-- C8 amended: for every free-text input and non-empty candidate id list,
find_thematic_connections returns exactly the candidates, in order, that
are present in the card index and whose case-folded title word set shares
at least two distinct words with the case-folded word set of the input (a
single shared word never qualifies); an empty or omitted candidate list is
replaced by the full set of indexed ids before this filter is applied.
Entries are assumed not to hold an explicit null title, which would raise
instead. -/
theorem c8_thematic_connections_filter :
    ∀ (card_index : CardIndex) (content : String) (cards : List String),
      cards ≠ [] →
      (∀ p ∈ card_index, p.2.title.notNull = true) →
      find_thematic_connections card_index content (some cards) =
        .ok (cards.filter (fun card_number =>
          match Dict.find? card_index card_number with
          | none => false
          | some info =>
            decide ((sharedWords (pyWords (strLower content))
              (pyWords (strLower ((info.title.getD? "").getD "")))).length ≥ 2))) := by
  intro card_index content cards hne hw
  unfold find_thematic_connections
  have hemp : cards.isEmpty = false := by
    cases cards with
    | nil => exact absurd rfl hne
    | cons a l => rfl
  simp only [hemp, Bool.false_eq_true, if_false]
  exact ftc_scan_filter hw cards

/-- C8 witness: the filter characterization applied to the alpha beta index
with one candidate sharing two words and the input sharing only one word
with nothing else. -/
theorem c8_thematic_connections_filter_witness :
    find_thematic_connections alphaBetaIndex "alpha beta gamma" (some ["1", "9"]) =
      .ok (["1", "9"].filter (fun card_number =>
        match Dict.find? alphaBetaIndex card_number with
        | none => false
        | some info =>
          decide ((sharedWords (pyWords (strLower "alpha beta gamma"))
            (pyWords (strLower ((info.title.getD? "").getD "")))).length ≥ 2))) :=
  c8_thematic_connections_filter alphaBetaIndex "alpha beta gamma" ["1", "9"]
    (by simp) (by decide)
